import Mathlib

/-!
Verification of the String Analyzer Service (Cloudflare Worker, TypeScript).

The development shallowly embeds the two route-handling variants found in the
repository (the worker in the first unnamed source file, called variant A here,
and the worker embedded at the end of README.md, called variant B), together
with the pure property functions of utils.ts.  JavaScript strings are modelled
as Lean `String`s viewed as their `List Char` of code points; `String.length`
in JavaScript (UTF-16 code units) is modelled by `jsLength`.  `URLSearchParams`
is modelled as an association list of string pairs where `get` returns the
first binding.  The SHA-256 digest is an external collaborator (Web Crypto),
so the state-machine theorems are parametric in the digest function.
-/

namespace StringAnalyzer

/-! ## JavaScript string primitives -/

/-- Lower-casing of a list of code points (models `String.prototype.toLowerCase`
on the ASCII range, which is all the worker's logic depends on). -/
def lowerChars (l : List Char) : List Char := l.map Char.toLower

/-- Lower-cased copy of a string. -/
def lowerStr (s : String) : String := String.mk (lowerChars s.data)

/-- Models `String.prototype.trim`: drop leading and trailing whitespace. -/
def trimList (l : List Char) : List Char :=
  ((l.dropWhile Char.isWhitespace).reverse.dropWhile Char.isWhitespace).reverse

/-- Trimmed copy of a string. -/
def trimString (s : String) : String := String.mk (trimList s.data)

/-- Substring scan: does `sub` occur contiguously inside `hay`? -/
def infixScan (sub : List Char) : List Char → Bool
  | [] => sub.isEmpty
  | c :: rest => sub.isPrefixOf (c :: rest) || infixScan sub rest

/-- Models `a.includes(b)`: `b` occurs as a contiguous substring of `a`. -/
def includesJS (a b : String) : Bool := infixScan b.data a.data

/-- Maximal run of decimal digits at the front of a list of characters. -/
def leadingDigits (l : List Char) : List Char := l.takeWhile Char.isDigit

/-- Numeric value of a run of decimal digits. -/
def natOfDigits (ds : List Char) : Nat := ds.foldl (fun n c => n * 10 + (c.toNat - 48)) 0

/-- Models `parseInt(s, 10)`: skip leading whitespace, optional sign, then a
leading run of decimal digits; `none` models `NaN`. -/
def parseIntJS (s : String) : Option Int :=
  match s.data.dropWhile Char.isWhitespace with
  | '-' :: rest =>
    if (leadingDigits rest).isEmpty then none else some (-(natOfDigits (leadingDigits rest) : Int))
  | '+' :: rest =>
    if (leadingDigits rest).isEmpty then none else some ((natOfDigits (leadingDigits rest) : Int))
  | rest =>
    if (leadingDigits rest).isEmpty then none else some ((natOfDigits (leadingDigits rest) : Int))

/-- UTF-16 width of a code point: characters outside the Basic Multilingual
Plane are encoded as a surrogate pair, hence two code units. -/
def utf16Width (c : Char) : Nat := if 0x10000 ≤ c.toNat then 2 else 1

/-- Models the JavaScript `String.prototype.length` (count of UTF-16 code
units), which is what `analyzeString` stores as `length`. -/
def jsLength (s : String) : Nat := (s.data.map utf16Width).sum

/-! ## utils.ts -/

/-- The list built by `value.replace(/[\W_]/g, "").toLowerCase()`: the regex
keeps exactly the ASCII alphanumeric characters, then the rest is lower-cased. -/
def cleanedChars (s : String) : List Char := lowerChars (s.data.filter Char.isAlphanum)

/-- `isPalindrome` from utils.ts: the cleaned, lower-cased string equals its
own reversal (`cleaned === cleaned.split("").reverse().join("")`). -/
def isPalindrome (s : String) : Bool :=
  decide (String.mk (cleanedChars s) = String.mk (cleanedChars s).reverse)

/-- `countUniqueChars` from utils.ts: `new Set(value).size`, i.e. the number of
distinct code points of the input. -/
def countUniqueChars (s : String) : Nat := s.data.dedup.length

/-- Counts maximal non-whitespace runs; the flag records whether the previous
character belonged to a word. -/
def countWordsAux : Bool → List Char → Nat
  | _, [] => 0
  | inWord, c :: rest =>
    if Char.isWhitespace c then countWordsAux false rest
    else (if inWord then 0 else 1) + countWordsAux true rest

/-- `countWords` from utils.ts: 0 for an all-whitespace string, otherwise the
number of segments of `value.trim().split(/\s+/)`. -/
def countWords (s : String) : Nat :=
  if trimList s.data = [] then 0 else countWordsAux false (trimList s.data)

/-- One step of `freq[char] = (freq[char] || 0) + 1` on a JavaScript object
modelled as an insertion-ordered association list. -/
def bump : List (Char × Nat) → Char → List (Char × Nat)
  | [], c => [(c, 1)]
  | (k, n) :: rest, c => if k = c then (k, n + 1) :: rest else (k, n) :: bump rest c

/-- `getCharFrequency` from utils.ts: one pass of `for (const char of value)`,
which iterates code points. -/
def getCharFrequency (s : String) : List (Char × Nat) := s.data.foldl bump []

/-- Sum of the counts stored in a frequency map. -/
def freqSum (m : List (Char × Nat)) : Nat := (m.map (fun p => p.2)).sum

/-- Lookup of a character's count in a frequency map. -/
def lookupFreq (m : List (Char × Nat)) (c : Char) : Option Nat :=
  (m.find? (fun p => decide (p.1 = c))).map (fun p => p.2)

/-- The record of properties computed by `analyzeString`.  `sha256_hash` comes
from the external Web Crypto digest. -/
structure StringProperties where
  length : Nat
  is_palindrome : Bool
  unique_characters : Nat
  word_count : Nat
  sha256_hash : String
  character_frequency_map : List (Char × Nat)
deriving DecidableEq

/-- `analyzeString` from utils.ts, parametric in the digest function `h`
(`computeSHA256` delegates to the external `crypto.subtle.digest`). -/
def analyzeString (h : String → String) (value : String) : StringProperties :=
  { length := jsLength value
    is_palindrome := isPalindrome value
    unique_characters := countUniqueChars value
    word_count := countWords value
    sha256_hash := h value
    character_frequency_map := getCharFrequency value }

/-! ## Records, query parameters as URLSearchParams, and the filter engine -/

/-- A persisted record, as built by the POST handler. -/
structure StringRecord where
  id : String
  value : String
  properties : StringProperties
  created_at : String
deriving DecidableEq

/-- `URLSearchParams` modelled as an ordered list of key/value pairs. -/
abbrev Params := List (String × String)

/-- `params.get(k)`: the first value bound to `k`, if any. -/
def getParam (ps : Params) (k : String) : Option String :=
  (ps.find? (fun p => decide (p.1 = k))).map (fun p => p.2)

/-- `params.has(k)`. -/
def hasParam (ps : Params) (k : String) : Bool := (getParam ps k).isSome

/-- Models `x || d` on a possibly-missing string: `null` and `""` are falsy. -/
def orEmpty (o : Option String) (d : String) : String :=
  match o with
  | none => d
  | some s => if s = "" then d else s

/-- The value compared against `is_palindrome` filters:
`params.get("is_palindrome") === "true"`. -/
def boolParamVal (ps : Params) : Bool := decide ((getParam ps "is_palindrome").getD "" = "true")

/-- `parseInt(params.get("min_length") || "0", 10)`. -/
def minVal (ps : Params) : Option Int := parseIntJS (orEmpty (getParam ps "min_length") "0")

/-- `parseInt(params.get("max_length") || "99999", 10)`. -/
def maxVal (ps : Params) : Option Int := parseIntJS (orEmpty (getParam ps "max_length") "99999")

/-- `parseInt(params.get("word_count") || "0", 10)`. -/
def wcVal (ps : Params) : Option Int := parseIntJS (orEmpty (getParam ps "word_count") "0")

/-- Variant A filter character string: `params.get("contains_character") || ""`. -/
def ccValA (ps : Params) : String := (getParam ps "contains_character").getD ""

/-- Variant B filter character string:
`(params.get("contains_character") || "").toLowerCase()`. -/
def ccValB (ps : Params) : String := lowerStr ((getParam ps "contains_character").getD "")

/-- `length >= min` where `min` may be `NaN` (every comparison with `NaN` is
false). -/
def geNum (n : Nat) (o : Option Int) : Bool :=
  match o with
  | some m => decide (m ≤ (n : Int))
  | none => false

/-- `length <= max` with `NaN` semantics. -/
def leNum (n : Nat) (o : Option Int) : Bool :=
  match o with
  | some m => decide ((n : Int) ≤ m)
  | none => false

/-- `Number(word_count) === wc` with `NaN` semantics. -/
def eqNum (n : Nat) (o : Option Int) : Bool :=
  match o with
  | some m => decide ((n : Int) = m)
  | none => false

/-- The `filters_applied` echo.  The inner `Option Int` of the numeric fields
models a JavaScript number that may be `NaN`. -/
structure AppliedFilters where
  is_palindrome : Option Bool := none
  min_length : Option (Option Int) := none
  max_length : Option (Option Int) := none
  word_count : Option (Option Int) := none
  contains_character : Option String := none
deriving DecidableEq

/-- Result of `applyFilters`: the surviving records plus the applied echo. -/
structure FilterResult where
  data : List StringRecord
  applied : AppliedFilters
deriving DecidableEq

/-- `applyFilters` of variant A (first unnamed source file): five sequential
`if (params.has(...))` blocks, each narrowing the list with `Array.filter`;
the `contains_character` test is `r.value.includes(ch)` on the raw strings. -/
def applyFilters (records : List StringRecord) (params : Params) : FilterResult :=
  let f1 := if hasParam params "is_palindrome" then
      records.filter (fun r => r.properties.is_palindrome == boolParamVal params)
    else records
  let f2 := if hasParam params "min_length" then
      f1.filter (fun r => geNum r.properties.length (minVal params))
    else f1
  let f3 := if hasParam params "max_length" then
      f2.filter (fun r => leNum r.properties.length (maxVal params))
    else f2
  let f4 := if hasParam params "word_count" then
      f3.filter (fun r => eqNum r.properties.word_count (wcVal params))
    else f3
  let f5 := if hasParam params "contains_character" then
      f4.filter (fun r => includesJS r.value (ccValA params))
    else f4
  { data := f5
    applied :=
      { is_palindrome := if hasParam params "is_palindrome" then some (boolParamVal params) else none
        min_length := if hasParam params "min_length" then some (minVal params) else none
        max_length := if hasParam params "max_length" then some (maxVal params) else none
        word_count := if hasParam params "word_count" then some (wcVal params) else none
        contains_character := if hasParam params "contains_character" then some (ccValA params) else none } }

/-- `applyFilters` of variant B (README worker): identical except that the
`contains_character` test lower-cases both the stored value and the filter
string before the containment check. -/
def applyFiltersB (records : List StringRecord) (params : Params) : FilterResult :=
  let f1 := if hasParam params "is_palindrome" then
      records.filter (fun r => r.properties.is_palindrome == boolParamVal params)
    else records
  let f2 := if hasParam params "min_length" then
      f1.filter (fun r => geNum r.properties.length (minVal params))
    else f1
  let f3 := if hasParam params "max_length" then
      f2.filter (fun r => leNum r.properties.length (maxVal params))
    else f2
  let f4 := if hasParam params "word_count" then
      f3.filter (fun r => eqNum r.properties.word_count (wcVal params))
    else f3
  let f5 := if hasParam params "contains_character" then
      f4.filter (fun r => includesJS (lowerStr r.value) (ccValB params))
    else f4
  { data := f5
    applied :=
      { is_palindrome := if hasParam params "is_palindrome" then some (boolParamVal params) else none
        min_length := if hasParam params "min_length" then some (minVal params) else none
        max_length := if hasParam params "max_length" then some (maxVal params) else none
        word_count := if hasParam params "word_count" then some (wcVal params) else none
        contains_character := if hasParam params "contains_character" then some (ccValB params) else none } }

/-- The conjunction of the five variant-A predicates, absent filters imposing
no constraint; nested exactly as the five sequential filters compose. -/
def passesAll (params : Params) (r : StringRecord) : Bool :=
  (!hasParam params "is_palindrome" || (r.properties.is_palindrome == boolParamVal params)) &&
  ((!hasParam params "min_length" || geNum r.properties.length (minVal params)) &&
  ((!hasParam params "max_length" || leNum r.properties.length (maxVal params)) &&
  ((!hasParam params "word_count" || eqNum r.properties.word_count (wcVal params)) &&
  (!hasParam params "contains_character" || includesJS r.value (ccValA params)))))

/-- The variant-B analogue of `passesAll`. -/
def passesAllB (params : Params) (r : StringRecord) : Bool :=
  (!hasParam params "is_palindrome" || (r.properties.is_palindrome == boolParamVal params)) &&
  ((!hasParam params "min_length" || geNum r.properties.length (minVal params)) &&
  ((!hasParam params "max_length" || leNum r.properties.length (maxVal params)) &&
  ((!hasParam params "word_count" || eqNum r.properties.word_count (wcVal params)) &&
  (!hasParam params "contains_character" || includesJS (lowerStr r.value) (ccValB params)))))

/-! ## Natural-language interpreter (parseNaturalLanguageQuery)

The source matches four independent regexes against the lower-cased, trimmed
query.  The regexes are embedded as explicit leftmost scans over the list of
characters, reproducing the alternation order and backtracking of the source
patterns. -/

/-- The regex word-character class `[A-Za-z0-9_]` used by the boundary `\b`. -/
def isWordChar (c : Char) : Bool := c.isAlphanum || c == '_'

/-- A `\b` boundary holds before a word character when the previous character
is absent or not a word character. -/
def boundaryBefore : Option Char → Bool
  | none => true
  | some c => !isWordChar c

/-- A `\b` boundary holds after the token when the following character is
absent or not a word character. -/
def boundaryAfter (tok l : List Char) : Bool :=
  match l.drop tok.length with
  | [] => true
  | c :: _ => !isWordChar c

/-- The token matches at the current position with a trailing boundary. -/
def tokenHere (tok l : List Char) : Bool := tok.isPrefixOf l && boundaryAfter tok l

/-- Leftmost scan for `\btok\b`, carrying the previous character for the
leading boundary. -/
def findTokenFrom (tok : List Char) : Option Char → List Char → Bool
  | prev, [] => boundaryBefore prev && tokenHere tok []
  | prev, c :: rest => (boundaryBefore prev && tokenHere tok (c :: rest)) || findTokenFrom tok (some c) rest

/-- Does the text contain `\btok\b`? -/
def hasToken (l : List Char) (tok : String) : Bool := findTokenFrom tok.data none l

/-- The word-count rule `/\b(single word|one word|\b1 word)\b/`. -/
def singleWordRule (l : List Char) : Bool :=
  hasToken l "single word" || hasToken l "one word" || hasToken l "1 word"

/-- Plain substring containment (a regex alternative with no boundaries). -/
def hasSub (l : List Char) (pat : String) : Bool := infixScan pat.data l

/-- The palindrome rule `/(palindromic|palindrome|palindromic strings|palindromes)/`. -/
def palindromeRule (l : List Char) : Bool :=
  hasSub l "palindromic" || hasSub l "palindrome" || hasSub l "palindromic strings" || hasSub l "palindromes"

/-- One position of `longer than (\d+)` followed by the unit word: the digit
run is maximal (greedy `\d+`; giving digits back can never help because the
unit starts with a space). -/
def longerHere (unit : List Char) (l : List Char) : Option Nat :=
  if ("longer than ".data).isPrefixOf l then
    let rest := l.drop 12
    let ds := leadingDigits rest
    if ds.isEmpty then none
    else if unit.isPrefixOf (rest.drop ds.length) then some (natOfDigits ds)
    else none
  else none

/-- Leftmost scan for the length rule. -/
def findLongerFrom (unit : List Char) : List Char → Option Nat
  | [] => none
  | c :: rest =>
    match longerHere unit (c :: rest) with
    | some n => some n
    | none => findLongerFrom unit rest

/-- The capture group `([a-z])`: a single lowercase letter at the head. -/
def letterHead : List Char → Option Char
  | [] => none
  | c :: _ => if ('a' ≤ c && c ≤ 'z') then some c else none

/-- One alternative of the optional group after the stem `contain`: the
suffix, then the literal ` the letter `, then the captured letter. -/
def strictAlt (rest : List Char) (suf : List Char) : Option Char :=
  if suf.isPrefixOf rest && (" the letter ".data).isPrefixOf (rest.drop suf.length) then
    letterHead (rest.drop (suf.length + 12))
  else none

/-- One position of the strict pattern: the stem `contain`, then the
alternatives of the optional suffix group tried in order. -/
def strictHere (sufs : List (List Char)) (l : List Char) : Option Char :=
  if ("contain".data).isPrefixOf l then
    sufs.foldl (fun acc suf =>
      match acc with
      | some c => some c
      | none => strictAlt (l.drop 7) suf) none
  else none

/-- Leftmost scan for the strict contains-letter pattern. -/
def findStrictFrom (sufs : List (List Char)) : List Char → Option Char
  | [] => none
  | c :: rest =>
    match strictHere sufs (c :: rest) with
    | some ch => some ch
    | none => findStrictFrom sufs rest

/-- One position of the looser pattern `containing (?:the )?([a-z])`: the
greedy optional `the ` is tried first, backtracking to the bare letter. -/
def looserHere (l : List Char) : Option Char :=
  if ("containing ".data).isPrefixOf l then
    let rest := l.drop 11
    match (if ("the ".data).isPrefixOf rest then letterHead (rest.drop 4) else none) with
    | some c => some c
    | none => letterHead rest
  else none

/-- Leftmost scan for the looser containing pattern. -/
def findLooserFrom : List Char → Option Char
  | [] => none
  | c :: rest =>
    match looserHere (c :: rest) with
    | some ch => some ch
    | none => findLooserFrom rest

/-- The predicate set emitted by the interpreter: each field is a key that a
rule may add.  `max_length` is never set by any current rule but belongs to
the closed filter vocabulary. -/
structure ParsedQuery where
  word_count : Option Nat := none
  is_palindrome : Option Bool := none
  min_length : Option Nat := none
  max_length : Option Nat := none
  contains_character : Option Char := none
deriving DecidableEq

/-- The lower-cased, trimmed copy of the query the rules are matched against
(`q.toLowerCase().trim()`). -/
def loweredChars (q : String) : List Char := trimList (lowerChars q.data)

/-- The shared shape of the rule set: the four rules applied independently,
parametric in the suffix alternatives of the strict contains pattern and in
the unit word of the length pattern; returns `none` when no rule fired
(`Object.keys(out).length === 0`). -/
def ruleInterpret (sufs : List (List Char)) (unit : List Char) (q : String) : Option ParsedQuery :=
  let l := loweredChars q
  let wc : Option Nat := if singleWordRule l then some 1 else none
  let pal : Option Bool := if palindromeRule l then some true else none
  let ml : Option Nat := (findLongerFrom unit l).map (fun n => n + 1)
  let cc : Option Char :=
    match findStrictFrom sufs l with
    | some c => some c
    | none => findLooserFrom l
  if wc.isNone && pal.isNone && ml.isNone && cc.isNone then none
  else some { word_count := wc, is_palindrome := pal, min_length := ml, max_length := none, contains_character := cc }

/-- `parseNaturalLanguageQuery` from the source: the strict pattern is
`contain(?:ing|s)? the letter ([a-z])` (suffix alternatives `ing`, `s`, and
empty) and the length pattern is `longer than (\d+) characters?` (the final
`s` optional, so matching only requires ` character`). -/
def parseNaturalLanguageQuery (q : String) : Option ParsedQuery :=
  ruleInterpret ["ing".data, "s".data, []] (" character".data) q

/-- Modelled from the claim's words, to be compared with the source: the
strict pattern is `contain(s|ing) the letter <c>` (a suffix is required) and
the length pattern is `longer than <N> characters` (plural required). -/
def claimInterpret (q : String) : Option ParsedQuery :=
  ruleInterpret ["ing".data, "s".data] (" characters".data) q

/-- Modelled from the amended claim's words: the strict pattern also accepts
the bare stem `contain`, and the length pattern accepts `character` with an
optional trailing `s`. -/
def claimInterpretAmended (q : String) : Option ParsedQuery :=
  ruleInterpret ["ing".data, "s".data, []] (" character".data) q

/-- Does any of the four interpreter rules fire on the query? -/
def anyRuleFires (q : String) : Bool :=
  singleWordRule (loweredChars q) || palindromeRule (loweredChars q) ||
  (findLongerFrom (" character".data) (loweredChars q)).isSome ||
  (findStrictFrom ["ing".data, "s".data, []] (loweredChars q)).isSome ||
  (findLooserFrom (loweredChars q)).isSome

/-! ## The key-value store and the route handlers -/

/-- The KV namespace modelled as an association list from key to record. -/
abbrev Store := List (String × StringRecord)

/-- `STRING_STORE.get(k)` (records deserialized, never tombstoned here). -/
def storeGet (st : Store) (k : String) : Option StringRecord :=
  (st.find? (fun p => decide (p.1 = k))).map (fun p => p.2)

/-- `STRING_STORE.put(k, r)`: bind `k`, replacing any previous binding. -/
def storePut (st : Store) (k : String) (r : StringRecord) : Store :=
  st.filter (fun p => !decide (p.1 = k)) ++ [(k, r)]

/-- `STRING_STORE.delete(k)`. -/
def storeDelete (st : Store) (k : String) : Store :=
  st.filter (fun p => !decide (p.1 = k))

/-- `STRING_STORE.list()` followed by fetching every record. -/
def storeList (st : Store) : List StringRecord := st.map (fun p => p.2)

/-- Outcome of the POST /strings handler. -/
inductive PostResult where
  | emptyValue
  | conflict
  | created (r : StringRecord)
deriving DecidableEq

/-- The POST /strings handler of variant A: trim the submitted value, reject
an empty result, analyze, use the digest as id and store key, reject a
duplicate with 409 without touching the store, otherwise persist. -/
def postString (h : String → String) (st : Store) (rawValue : String) (now : String) :
    PostResult × Store :=
  let value := trimString rawValue
  if value = "" then (PostResult.emptyValue, st)
  else
    let analysis := analyzeString h value
    let id := analysis.sha256_hash
    match storeGet st id with
    | some _ => (PostResult.conflict, st)
    | none =>
      let r : StringRecord := { id := id, value := value, properties := analysis, created_at := now }
      (PostResult.created r, storePut st id r)

/-- GET /strings/{value}: recompute the digest of the candidate value and look
it up. -/
def getByValue (h : String → String) (st : Store) (v : String) : Option StringRecord :=
  storeGet st (h v)

/-- Outcome of the DELETE /strings/{value} handler. -/
inductive DeleteResult where
  | notFound
  | deleted
deriving DecidableEq

/-- DELETE /strings/{value}: recompute the digest, 404 when absent, else
delete the key. -/
def deleteByValue (h : String → String) (st : Store) (v : String) : DeleteResult × Store :=
  match storeGet st (h v) with
  | none => (DeleteResult.notFound, st)
  | some _ => (DeleteResult.deleted, storeDelete st (h v))

/-- Outcome of GET /strings/filter-by-natural-language. -/
inductive NLResult where
  | missingQuery
  | parseFailure
  | conflictingFilters
  | ok (data : List StringRecord) (parsed : ParsedQuery)
deriving DecidableEq

/-- The conflicting-filter check of the route:
`parsed.min_length !== undefined && parsed.max_length !== undefined && min > max`. -/
def conflictCheck (p : ParsedQuery) : Bool :=
  match p.min_length, p.max_length with
  | some a, some b => decide (b < a)
  | _, _ => false

/-- `Object.entries(parsed)` re-encoded as URLSearchParams, in the insertion
order of the rule set, with `String(v)` stringification. -/
def paramsOfParsed (p : ParsedQuery) : Params :=
  (p.word_count.map (fun n => ("word_count", toString n))).toList ++
  (p.is_palindrome.map (fun b => ("is_palindrome", if b then "true" else "false"))).toList ++
  (p.min_length.map (fun n => ("min_length", toString n))).toList ++
  (p.contains_character.map (fun c => ("contains_character", String.mk [c]))).toList

/-- The natural-language route of variant A: missing query, parse failure and
conflicting filters are distinct outcomes, otherwise the parsed predicates
are replayed through `applyFilters`. -/
def nlRoute (st : Store) (q : String) : NLResult :=
  if q = "" then NLResult.missingQuery
  else
    match parseNaturalLanguageQuery q with
    | none => NLResult.parseFailure
    | some p =>
      if conflictCheck p then NLResult.conflictingFilters
      else NLResult.ok (applyFilters (storeList st) (paramsOfParsed p)).data p

/-- HTTP status of each natural-language outcome. -/
def statusOf : NLResult → Nat
  | NLResult.missingQuery => 400
  | NLResult.parseFailure => 400
  | NLResult.conflictingFilters => 422
  | NLResult.ok _ _ => 200

/-- Discriminates the conflicting-filters outcome. -/
def isConflictResult : NLResult → Bool
  | NLResult.conflictingFilters => true
  | _ => false

/-- Outcome of GET /strings. -/
inductive GetStringsResult where
  | badParam (name : String)
  | ok (res : FilterResult)
deriving DecidableEq

/-- GET /strings of variant A: no validation at all, filters applied directly. -/
def routeGetStringsA (st : Store) (params : Params) : GetStringsResult :=
  GetStringsResult.ok (applyFilters (storeList st) params)

/-- The regex `/^\d+$/`. -/
def isDigitString (s : String) : Bool := !s.data.isEmpty && s.data.all Char.isDigit

/-- The query-parameter validation of variant B, in source order, returning
the name of the first offending parameter. -/
def validateB (params : Params) : Option String :=
  if hasParam params "is_palindrome" &&
      !(decide ((getParam params "is_palindrome").getD "" = "true") ||
        decide ((getParam params "is_palindrome").getD "" = "false")) then some "is_palindrome"
  else if hasParam params "min_length" && !isDigitString ((getParam params "min_length").getD "") then
    some "min_length"
  else if hasParam params "max_length" && !isDigitString ((getParam params "max_length").getD "") then
    some "max_length"
  else if hasParam params "word_count" && !isDigitString ((getParam params "word_count").getD "") then
    some "word_count"
  else if hasParam params "contains_character" &&
      decide ((getParam params "contains_character").getD "" = "") then some "contains_character"
  else none

/-- GET /strings of variant B: validate, then filter. -/
def routeGetStringsB (st : Store) (params : Params) : GetStringsResult :=
  match validateB params with
  | some n => GetStringsResult.badParam n
  | none => GetStringsResult.ok (applyFiltersB (storeList st) params)

/-- Discriminates the InvalidInput outcome of GET /strings. -/
def isBadResult : GetStringsResult → Bool
  | GetStringsResult.badParam _ => true
  | GetStringsResult.ok _ => false

/-- Modelled from the amended claim's words: variant B rejects a request iff
some recognized parameter is present and malformed, where malformed means a
non-boolean `is_palindrome`, a non-digit-run `min_length`, `max_length` or
`word_count`, or an empty `contains_character`. -/
def invalidInputB (params : Params) : Bool :=
  (hasParam params "is_palindrome" &&
    !(decide ((getParam params "is_palindrome").getD "" = "true") ||
      decide ((getParam params "is_palindrome").getD "" = "false"))) ||
  (hasParam params "min_length" && !isDigitString ((getParam params "min_length").getD "")) ||
  (hasParam params "max_length" && !isDigitString ((getParam params "max_length").getD "")) ||
  (hasParam params "word_count" && !isDigitString ((getParam params "word_count").getD "")) ||
  (hasParam params "contains_character" && decide ((getParam params "contains_character").getD "" = ""))

/-- The store invariant of the data model: every binding's key equals the
record's `id`, which equals the digest of the record's `value` as stored. -/
def StoreInv (h : String → String) (st : Store) : Prop :=
  ∀ p ∈ st, p.1 = p.2.id ∧ p.2.id = h p.2.value

/-! ## Concrete fixtures used by counterexamples and witnesses -/

/-- A concrete digest function for witnesses (the theorems are parametric in
the digest, so any function instantiates them). -/
def hW : String → String := fun s => String.append "h" s

/-- A concrete persisted record for witnesses. -/
def recW : StringRecord :=
  { id := hW "x", value := "x", properties := analyzeString hW "x", created_at := "t" }

/-- A one-record store for witnesses. -/
def stW : Store := [(hW "x", recW)]

/-- A record whose stored value is the upper-case string `Z`. -/
def recZ : StringRecord :=
  { id := "z1", value := "Z", properties := analyzeString hW "Z", created_at := "t" }

/-- Modelled from the claim's words for the palindrome test: strip every
character that is not a letter or digit, then lower-case the remainder. -/
def specStrip (s : String) : List Char :=
  (s.data.filter (fun c => c.isAlpha || c.isDigit)).map Char.toLower

/-! ## General lemmas about the filter chain -/

theorem filter_true_own {α : Type} (l : List α) : l.filter (fun _ => true) = l := by
  induction l with
  | nil => rfl
  | cons a l ih => simp [List.filter_cons, ih]

theorem filter_filter_own {α : Type} (p q : α → Bool) (l : List α) :
    (l.filter p).filter q = l.filter (fun a => p a && q a) := by
  induction l with
  | nil => rfl
  | cons a l ih => cases hp : p a <;> cases hq : q a <;> simp [List.filter_cons, hp, hq, ih]

theorem filter_congr_own {α : Type} (p q : α → Bool) (l : List α) (h : ∀ a, p a = q a) :
    l.filter p = l.filter q := by
  induction l with
  | nil => rfl
  | cons a l ih => rw [List.filter_cons, List.filter_cons, h a, ih]

theorem filter_if_step {α : Type} (c : Bool) (p : α → Bool) (l : List α) :
    (if c then l.filter p else l) = l.filter (fun a => !c || p a) := by
  cases c
  · simp [filter_true_own]
  · simp

theorem applyFilters_data_eq (records : List StringRecord) (params : Params) :
    (applyFilters records params).data = records.filter (passesAll params) := by
  show (if hasParam params "contains_character" then _ else _) = _
  rw [filter_if_step, filter_if_step, filter_if_step, filter_if_step, filter_if_step,
    filter_filter_own, filter_filter_own, filter_filter_own, filter_filter_own]
  rfl

theorem applyFiltersB_data_eq (records : List StringRecord) (params : Params) :
    (applyFiltersB records params).data = records.filter (passesAllB params) := by
  show (if hasParam params "contains_character" then _ else _) = _
  rw [filter_if_step, filter_if_step, filter_if_step, filter_if_step, filter_if_step,
    filter_filter_own, filter_filter_own, filter_filter_own, filter_filter_own]
  rfl

/-! ## C9: the palindrome test -/

/-- C9: `is_palindrome` is computed by stripping every character that is not a
letter or digit, lower-casing the remainder and comparing it with its own
reversal; an empty post-strip result is vacuously palindromic (the list
equation holds for the empty list, as the `""` example shows), and the four
spec examples evaluate as stated. -/
theorem isPalindrome_spec :
    (∀ s, isPalindrome s = true ↔ specStrip s = (specStrip s).reverse)
  ∧ isPalindrome "racecar" = true
  ∧ isPalindrome "Race, car!" = true
  ∧ isPalindrome "" = true
  ∧ isPalindrome "ab" = false := by
  refine ⟨fun s => ?_, rfl, rfl, rfl, rfl⟩
  constructor
  · intro hh
    exact congrArg String.data (of_decide_eq_true hh)
  · intro hh
    exact decide_eq_true (congrArg String.mk hh)

/-! ## C1: case sensitivity of the contains_character filter -/

/-- C1 counterexample: under the filter character `z`, variant A's
`applyFilters` drops the record whose stored value is `Z`, even though the
lower-cased stored value does contain the lower-cased filter character; so the
containment test is not case-insensitive in both route-handling variants. -/
theorem contains_character_counterexample :
    (applyFilters [recZ] [("contains_character", "z")]).data = []
  ∧ includesJS (lowerStr "Z") (lowerStr "z") = true := ⟨rfl, rfl⟩

/-- C1 amended: variant B keeps exactly the records whose lower-cased stored
value contains the lower-cased filter string, while variant A's containment
test is case-sensitive: it keeps exactly the records whose raw stored value
contains the raw filter string. -/
theorem contains_character_amended :
    (∀ (records : List StringRecord) (v : String) (r : StringRecord),
        r ∈ (applyFiltersB records [("contains_character", v)]).data
          ↔ r ∈ records ∧ includesJS (lowerStr r.value) (lowerStr v) = true)
  ∧ (∀ (records : List StringRecord) (v : String) (r : StringRecord),
        r ∈ (applyFilters records [("contains_character", v)]).data
          ↔ r ∈ records ∧ includesJS r.value v = true) := by
  constructor
  · intro records v r
    rw [applyFiltersB_data_eq, List.mem_filter]
    have hp : passesAllB [("contains_character", v)] r
        = includesJS (lowerStr r.value) (lowerStr v) := by
      simp [passesAllB,
        show hasParam [("contains_character", v)] "is_palindrome" = false from rfl,
        show hasParam [("contains_character", v)] "min_length" = false from rfl,
        show hasParam [("contains_character", v)] "max_length" = false from rfl,
        show hasParam [("contains_character", v)] "word_count" = false from rfl,
        show hasParam [("contains_character", v)] "contains_character" = true from rfl,
        show ccValB [("contains_character", v)] = lowerStr v from rfl]
    rw [hp]
  · intro records v r
    rw [applyFilters_data_eq, List.mem_filter]
    have hp : passesAll [("contains_character", v)] r = includesJS r.value v := by
      simp [passesAll,
        show hasParam [("contains_character", v)] "is_palindrome" = false from rfl,
        show hasParam [("contains_character", v)] "min_length" = false from rfl,
        show hasParam [("contains_character", v)] "max_length" = false from rfl,
        show hasParam [("contains_character", v)] "word_count" = false from rfl,
        show hasParam [("contains_character", v)] "contains_character" = true from rfl,
        show ccValA [("contains_character", v)] = v from rfl]
    rw [hp]

/-! ## C2: conjunctive, stable filtering -/

theorem minmax5_bool (n : Nat) :
    (decide ((5 : Int) ≤ (n : Int)) && decide ((n : Int) ≤ (5 : Int))) = (n == 5) := by
  rw [Bool.eq_iff_iff]
  simp only [Bool.and_eq_true, decide_eq_true_eq, beq_iff_eq]
  omega

/-- C2: `applyFilters` returns the subsequence of its input satisfying the
conjunction of every present predicate (a stable filter preserving the
input's relative order, witnessed by the `filter` characterization and the
sublist property); with none of the five predicate names present it returns
the input unchanged, and with `min_length = 5` and `max_length = 5` it
returns exactly the records whose stored length is 5. -/
theorem applyFilters_conjunctive_stable :
    (∀ (records : List StringRecord) (params : Params),
        (applyFilters records params).data = records.filter (passesAll params))
  ∧ (∀ (records : List StringRecord) (params : Params),
        List.Sublist (applyFilters records params).data records)
  ∧ (∀ (records : List StringRecord) (params : Params),
        hasParam params "is_palindrome" = false → hasParam params "min_length" = false →
        hasParam params "max_length" = false → hasParam params "word_count" = false →
        hasParam params "contains_character" = false →
        (applyFilters records params).data = records)
  ∧ (∀ records : List StringRecord,
        (applyFilters records [("min_length", "5"), ("max_length", "5")]).data
          = records.filter (fun r => r.properties.length == 5)) := by
  refine ⟨applyFilters_data_eq, fun records params => ?_,
    fun records params h1 h2 h3 h4 h5 => ?_, fun records => ?_⟩
  · rw [applyFilters_data_eq]
    exact List.filter_sublist records
  · rw [applyFilters_data_eq,
      filter_congr_own _ (fun _ => true) _ (fun r => by simp [passesAll, h1, h2, h3, h4, h5]),
      filter_true_own]
  · rw [applyFilters_data_eq]
    refine filter_congr_own _ _ _ (fun r => ?_)
    have e1 : hasParam [("min_length", "5"), ("max_length", "5")] "is_palindrome" = false := rfl
    have e2 : hasParam [("min_length", "5"), ("max_length", "5")] "min_length" = true := rfl
    have e3 : hasParam [("min_length", "5"), ("max_length", "5")] "max_length" = true := rfl
    have e4 : hasParam [("min_length", "5"), ("max_length", "5")] "word_count" = false := rfl
    have e5 : hasParam [("min_length", "5"), ("max_length", "5")] "contains_character" = false := rfl
    have emin : minVal [("min_length", "5"), ("max_length", "5")] = some 5 := rfl
    have emax : maxVal [("min_length", "5"), ("max_length", "5")] = some 5 := rfl
    simp only [passesAll, e1, e2, e3, e4, e5, emin, emax, geNum, leNum,
      Bool.not_false, Bool.not_true, Bool.true_or, Bool.false_or, Bool.true_and, Bool.and_true]
    exact minmax5_bool r.properties.length

/-- C2 witness: the general theorem applied at a concrete one-record list with
an empty predicate set returns the input unchanged. -/
theorem applyFilters_conjunctive_stable_witness :
    (applyFilters [recW] []).data = [recW] :=
  applyFilters_conjunctive_stable.2.2.1 [recW] [] rfl rfl rfl rfl rfl

/-! ## C3: the interpreter rule set -/

/-- C3 counterexample: the interpreter as the claim describes it (strict
pattern requiring a suffix on `contain`, plural `characters` required) parses
neither query, while the source interpreter fires on both: the bare verb stem
`contain the letter z` already sets `contains_character`, and the singular
`character` already satisfies the length rule. -/
theorem interpret_rules_counterexample :
    claimInterpret "strings that contain the letter z" = none
  ∧ parseNaturalLanguageQuery "strings that contain the letter z"
      = some { contains_character := some 'z' }
  ∧ claimInterpret "strings longer than 10 character" = none
  ∧ parseNaturalLanguageQuery "strings longer than 10 character"
      = some { min_length := some 11 } := ⟨rfl, rfl, rfl, rfl⟩

/-- C3 amended: the interpreter works on the lower-cased, trimmed copy and
applies the rules independently as claimed, with the strict contains pattern
`contain(s|ing)? the letter <c>` (the bare stem also accepted) and the length
pattern `longer than <N> character(s)` (singular accepted); the two spec
examples evaluate as stated. -/
theorem interpret_rules_amended :
    (∀ q, parseNaturalLanguageQuery q = claimInterpretAmended q)
  ∧ parseNaturalLanguageQuery "all single word palindromic strings"
      = some { word_count := some 1, is_palindrome := some true }
  ∧ parseNaturalLanguageQuery "strings longer than 10 characters"
      = some { min_length := some 11 } := ⟨fun _ => rfl, rfl, rfl⟩

/-! ## C4: parse failure is a distinct client-visible signal -/

theorem parse_none_iff (q : String) :
    parseNaturalLanguageQuery q = none ↔ anyRuleFires q = false := by
  unfold parseNaturalLanguageQuery ruleInterpret anyRuleFires
  by_cases h1 : singleWordRule (loweredChars q) <;>
  by_cases h2 : palindromeRule (loweredChars q) <;>
  cases h3 : findLongerFrom (" character".data) (loweredChars q) <;>
  cases h4 : findStrictFrom ["ing".data, "s".data, []] (loweredChars q) <;>
  cases h5 : findLooserFrom (loweredChars q) <;>
  simp [h1, h2, h3, h4, h5]

/-- C4: the interpreter returns `none` exactly when no rule fires (for example
on "the quick brown fox"), the route surfaces that `none` as the parse-failure
outcome rather than as an empty filter set, and that outcome is a distinct
signal (status 400) from the conflicting-filters outcome (status 422). -/
theorem interpret_null_parse_failure :
    (∀ q, parseNaturalLanguageQuery q = none ↔ anyRuleFires q = false)
  ∧ parseNaturalLanguageQuery "the quick brown fox" = none
  ∧ (∀ st : Store, nlRoute st "the quick brown fox" = NLResult.parseFailure)
  ∧ (∀ (st : Store) (q : String),
      nlRoute st q = NLResult.parseFailure ↔ ¬q = "" ∧ parseNaturalLanguageQuery q = none)
  ∧ statusOf NLResult.parseFailure = 400
  ∧ statusOf NLResult.conflictingFilters = 422
  ∧ isConflictResult NLResult.parseFailure = false := by
  refine ⟨parse_none_iff, rfl, fun st => rfl, fun st q => ?_, rfl, rfl, rfl⟩
  unfold nlRoute
  by_cases hq : q = ""
  · simp [hq]
  · rw [if_neg hq]
    cases hp : parseNaturalLanguageQuery q with
    | none => simp [hq]
    | some p => cases hc : conflictCheck p <;> simp [hq, hc]

/-! ## C10: the conflicting-filters branch is unreachable -/

theorem ruleMaxNone (q : String) :
    ((parseNaturalLanguageQuery q).elim true (fun p => p.max_length.isNone)) = true := by
  unfold parseNaturalLanguageQuery ruleInterpret
  by_cases h1 : singleWordRule (loweredChars q) <;>
  by_cases h2 : palindromeRule (loweredChars q) <;>
  cases h3 : findLongerFrom (" character".data) (loweredChars q) <;>
  cases h4 : findStrictFrom ["ing".data, "s".data, []] (loweredChars q) <;>
  cases h5 : findLooserFrom (loweredChars q) <;>
  simp [h1, h2, h3, h4, h5]

theorem ruleNoConflict (q : String) :
    ((parseNaturalLanguageQuery q).elim false conflictCheck) = false := by
  unfold parseNaturalLanguageQuery ruleInterpret
  by_cases h1 : singleWordRule (loweredChars q) <;>
  by_cases h2 : palindromeRule (loweredChars q) <;>
  cases h3 : findLongerFrom (" character".data) (loweredChars q) <;>
  cases h4 : findStrictFrom ["ing".data, "s".data, []] (loweredChars q) <;>
  cases h5 : findLooserFrom (loweredChars q) <;>
  simp [h1, h2, h3, h4, h5, conflictCheck]

/-- C10: no rule of the current interpreter ever emits `max_length`, so after
a successful interpretation the conflicting-filter condition
(`min_length > max_length` with both set) is never true, and the
ConflictingFilters outcome of the natural-language route is unreachable. -/
theorem interpret_no_max_length :
    (∀ q, ((parseNaturalLanguageQuery q).elim true (fun p => p.max_length.isNone)) = true)
  ∧ (∀ q, ((parseNaturalLanguageQuery q).elim false conflictCheck) = false)
  ∧ (∀ (st : Store) (q : String), isConflictResult (nlRoute st q) = false) := by
  refine ⟨ruleMaxNone, ruleNoConflict, fun st q => ?_⟩
  unfold nlRoute
  by_cases hq : q = ""
  · simp [hq, isConflictResult]
  · rw [if_neg hq]
    cases hp : parseNaturalLanguageQuery q with
    | none => rfl
    | some p =>
      have hc : conflictCheck p = false := by
        have hcq := ruleNoConflict q
        rw [hp] at hcq
        exact hcq
      simp [hc, isConflictResult]

/-! ## C5: the character frequency map -/

theorem freqSum_bump (m : List (Char × Nat)) (c : Char) :
    freqSum (bump m c) = freqSum m + 1 := by
  induction m with
  | nil => rfl
  | cons p rest ih =>
    obtain ⟨k, n⟩ := p
    by_cases h : k = c
    · simp [bump, h, freqSum]
      omega
    · simp [bump, h, freqSum] at ih ⊢
      omega

theorem freqSum_foldl (l : List Char) : ∀ m : List (Char × Nat),
    freqSum (l.foldl bump m) = freqSum m + l.length := by
  induction l with
  | nil => intro m; simp
  | cons a l ih =>
    intro m
    simp only [List.foldl_cons, List.length_cons]
    rw [ih (bump m a), freqSum_bump]
    omega

theorem lookupFreq_bump_same (m : List (Char × Nat)) (c : Char) :
    lookupFreq (bump m c) c = some ((lookupFreq m c).getD 0 + 1) := by
  induction m with
  | nil => simp [bump, lookupFreq]
  | cons p rest ih =>
    obtain ⟨k, n⟩ := p
    by_cases h : k = c
    · simp [bump, h, lookupFreq]
    · simp [bump, h, lookupFreq] at ih ⊢
      exact ih

theorem lookupFreq_bump_ne (m : List (Char × Nat)) (c c' : Char) (h : ¬c' = c) :
    lookupFreq (bump m c') c = lookupFreq m c := by
  have h2 : ¬c = c' := fun hh => h hh.symm
  induction m with
  | nil => simp [bump, lookupFreq, h]
  | cons p rest ih =>
    obtain ⟨k, n⟩ := p
    by_cases hk : k = c'
    · subst hk
      simp [bump, lookupFreq, h]
    · by_cases hkc : k = c
      · subst hkc
        simp [bump, lookupFreq, h2]
      · simp [bump, hk, lookupFreq, hkc] at ih ⊢
        exact ih

theorem lookupFreq_foldl (l : List Char) : ∀ (m : List (Char × Nat)) (c : Char),
    lookupFreq (l.foldl bump m) c
      = if l.count c = 0 then lookupFreq m c
        else some ((lookupFreq m c).getD 0 + l.count c) := by
  induction l with
  | nil => intro m c; simp
  | cons a l ih =>
    intro m c
    simp only [List.foldl_cons]
    by_cases hac : a = c
    · subst hac
      rw [ih (bump m a) a]
      have hcount : (a :: l).count a = l.count a + 1 := by simp [List.count_cons]
      rw [hcount, lookupFreq_bump_same]
      by_cases hl : l.count a = 0
      · simp [hl]
      · simp only [hl, if_false, Option.getD_some, if_neg (by omega : ¬l.count a + 1 = 0)]
        congr 1
        omega
    · rw [ih (bump m a) c, lookupFreq_bump_ne _ _ _ hac]
      have hcount : (a :: l).count c = l.count c := by
        simp [List.count_cons, hac]
      rw [hcount]

theorem lookupFreq_getCharFrequency (s : String) (c : Char) :
    lookupFreq (getCharFrequency s) c
      = if s.data.count c = 0 then none else some (s.data.count c) := by
  unfold getCharFrequency
  rw [lookupFreq_foldl s.data [] c]
  by_cases hc : s.data.count c = 0
  · simp [hc, lookupFreq]
  · simp [hc, lookupFreq]

theorem keys_bump_mem (m : List (Char × Nat)) (c x : Char) :
    x ∈ (bump m c).map Prod.fst ↔ x ∈ m.map Prod.fst ∨ x = c := by
  induction m with
  | nil => simp [bump]
  | cons p rest ih =>
    obtain ⟨k, n⟩ := p
    by_cases h : k = c
    · subst h
      simp [bump]
      tauto
    · simp [bump, h, ih]
      tauto

theorem keys_bump_nodup (m : List (Char × Nat)) (c : Char)
    (h : (m.map Prod.fst).Nodup) : ((bump m c).map Prod.fst).Nodup := by
  induction m with
  | nil => simp [bump]
  | cons p rest ih =>
    obtain ⟨k, n⟩ := p
    simp only [List.map_cons, List.nodup_cons] at h
    by_cases hk : k = c
    · subst hk
      show ((if k = k then (k, n + 1) :: rest else (k, n) :: bump rest k).map Prod.fst).Nodup
      rw [if_pos rfl]
      simp only [List.map_cons, List.nodup_cons]
      exact ⟨h.1, h.2⟩
    · simp only [bump, if_neg hk, List.map_cons, List.nodup_cons]
      refine ⟨?_, ih h.2⟩
      rw [keys_bump_mem]
      rintro (hmem | rfl)
      · exact h.1 hmem
      · exact hk rfl

theorem keys_foldl_mem (l : List Char) : ∀ (m : List (Char × Nat)) (x : Char),
    x ∈ (l.foldl bump m).map Prod.fst ↔ x ∈ m.map Prod.fst ∨ x ∈ l := by
  induction l with
  | nil => intro m x; simp
  | cons a l ih =>
    intro m x
    simp only [List.foldl_cons, ih, keys_bump_mem, List.mem_cons]
    tauto

theorem keys_foldl_nodup (l : List Char) : ∀ m, (m.map Prod.fst).Nodup →
    ((l.foldl bump m).map Prod.fst).Nodup := by
  induction l with
  | nil => intro m h; simpa using h
  | cons a l ih =>
    intro m h
    exact ih _ (keys_bump_nodup _ _ h)

theorem getCharFrequency_length (s : String) :
    (getCharFrequency s).length = countUniqueChars s := by
  have hnodup : ((getCharFrequency s).map Prod.fst).Nodup :=
    keys_foldl_nodup s.data [] (by simp)
  have hmem : ∀ x, x ∈ (getCharFrequency s).map Prod.fst ↔ x ∈ s.data := by
    intro x
    unfold getCharFrequency
    rw [keys_foldl_mem]
    simp
  have h1 : (getCharFrequency s).length = ((getCharFrequency s).map Prod.fst).length := by simp
  rw [h1, ← List.toFinset_card_of_nodup hnodup]
  unfold countUniqueChars
  rw [← List.card_toFinset]
  congr 1
  ext x
  simp only [List.mem_toFinset, hmem]

theorem sum_width_ge (l : List Char) : l.length ≤ (l.map utf16Width).sum := by
  induction l with
  | nil => simp
  | cons a l ih =>
    simp only [List.map_cons, List.sum_cons, List.length_cons, utf16Width]
    split <;> omega

theorem sum_width_eq_iff (l : List Char) :
    (l.map utf16Width).sum = l.length ↔ ∀ c ∈ l, c.toNat < 65536 := by
  induction l with
  | nil => simp
  | cons a l ih =>
    have hge := sum_width_ge l
    simp only [List.map_cons, List.sum_cons, List.length_cons, List.mem_cons, utf16Width]
    by_cases ha : 65536 ≤ a.toNat
    · rw [if_pos ha]
      constructor
      · intro heq
        exact absurd heq (by omega)
      · intro hall
        exact absurd (hall a (Or.inl rfl)) (by omega)
    · rw [if_neg ha]
      constructor
      · intro heq c hc
        rcases hc with rfl | hc
        · omega
        · exact (ih.mp (by omega)) c hc
      · intro hall
        have hrest : (l.map utf16Width).sum = l.length :=
          ih.mpr (fun c hc => hall c (Or.inr hc))
        omega

/-- C5 counterexample: on the single-character string holding U+1D11E (a
character outside the Basic Multilingual Plane), the frequency map built by
`analyzeString` sums to 1 while the stored `length` is 2, so the sum of the
map's values does not equal the record's length and the three fields do not
share one character-unit model. -/
theorem char_frequency_counterexample :
    freqSum (analyzeString hW (String.mk [Char.ofNat 119070])).character_frequency_map = 1
  ∧ (analyzeString hW (String.mk [Char.ofNat 119070])).length = 2 := ⟨rfl, rfl⟩

/-- C5 amended: the frequency map maps each distinct code point of the input
(case-sensitive, whitespace included) to its occurrence count; the sum of its
values is the number of code points, which also agrees with
`unique_characters` on the number of distinct entries; that sum equals the
stored `length` (UTF-16 code units) exactly when the input has no character
outside the Basic Multilingual Plane. -/
theorem char_frequency_amended (h : String → String) (s : String) :
    (∀ c : Char, lookupFreq (analyzeString h s).character_frequency_map c
        = if s.data.count c = 0 then none else some (s.data.count c))
  ∧ freqSum (analyzeString h s).character_frequency_map = s.data.length
  ∧ (analyzeString h s).character_frequency_map.length = (analyzeString h s).unique_characters
  ∧ (freqSum (analyzeString h s).character_frequency_map = (analyzeString h s).length
       ↔ ∀ c ∈ s.data, c.toNat < 65536) := by
  have hsum : freqSum (getCharFrequency s) = s.data.length := by
    unfold getCharFrequency
    rw [freqSum_foldl]
    simp [freqSum]
  refine ⟨fun c => lookupFreq_getCharFrequency s c, hsum, getCharFrequency_length s, ?_⟩
  show freqSum (getCharFrequency s) = jsLength s ↔ _
  rw [hsum]
  unfold jsLength
  rw [eq_comm]
  exact sum_width_eq_iff s.data

/-! ## C6: the digest-keying invariant -/

/-- C6: for any digest function, the store invariant (key = `id` = digest of
the stored `value`) is preserved by the POST handler and by delete-by-value,
and lookups-by-value recompute the digest from the candidate and locate a
record exactly when a stored binding carries the matching digest; any located
record's `id` and value digest agree with the recomputed digest. -/
theorem store_hash_invariant (h : String → String) (st : Store) (v now : String)
    (hinv : StoreInv h st) :
    StoreInv h (postString h st v now).2
  ∧ StoreInv h (deleteByValue h st v).2
  ∧ (∀ r, getByValue h st v = some r → r.id = h v ∧ h r.value = h v)
  ∧ ((getByValue h st v).isSome = true ↔ ∃ p ∈ st, h p.2.value = h v) := by
  refine ⟨?_, ?_, ?_, ?_⟩
  · simp only [postString]
    split
    · exact hinv
    · split
      · exact hinv
      · intro p hp
        simp only [storePut, List.mem_append, List.mem_filter, List.mem_singleton] at hp
        rcases hp with ⟨hmem, _⟩ | rfl
        · exact hinv p hmem
        · exact ⟨rfl, rfl⟩
  · unfold deleteByValue
    cases hget : storeGet st (h v) with
    | none => exact hinv
    | some r0 =>
      intro p hp
      simp only [storeDelete, List.mem_filter] at hp
      exact hinv p hp.1
  · intro r hr
    unfold getByValue storeGet at hr
    rw [Option.map_eq_some'] at hr
    obtain ⟨p, hfind, hsnd⟩ := hr
    have hmem := List.mem_of_find?_eq_some hfind
    have hkey : p.1 = h v := by
      have := List.find?_some hfind
      exact of_decide_eq_true this
    obtain ⟨hid, hdig⟩ := hinv p hmem
    constructor
    · rw [← hsnd, ← hid, hkey]
    · rw [← hsnd, ← hdig, ← hid, hkey]
  · unfold getByValue storeGet
    rw [Option.isSome_map', List.find?_isSome]
    constructor
    · rintro ⟨p, hmem, hpred⟩
      refine ⟨p, hmem, ?_⟩
      obtain ⟨hid, hdig⟩ := hinv p hmem
      rw [← hdig, ← hid]
      exact of_decide_eq_true hpred
    · rintro ⟨p, hmem, hdigeq⟩
      refine ⟨p, hmem, ?_⟩
      obtain ⟨hid, hdig⟩ := hinv p hmem
      exact decide_eq_true (by rw [hid, hdig]; exact hdigeq)

/-- C6 witness: the invariant theorem applied to a concrete digest function,
a concrete one-record store satisfying the invariant, and a concrete value. -/
theorem store_hash_invariant_witness :
    StoreInv hW (postString hW stW "ab" "t").2 :=
  (store_hash_invariant hW stW "ab" "t"
    (by
      intro p hp
      simp only [stW, List.mem_singleton] at hp
      subst hp
      exact ⟨rfl, rfl⟩)).1

/-! ## C8: duplicates are rejected, never overwritten -/

/-- C8: a POST whose (trimmed) value already has a record under its digest key
returns the Conflict outcome and leaves the store untouched; the POST handler
preserves key uniqueness, so one record exists per distinct stored value: two
stored bindings with equal values are the same binding (and the route set has
no update operation: only POST ever writes). -/
theorem post_duplicate_conflict :
    (∀ (h : String → String) (st : Store) (v now : String),
        ¬trimString v = "" →
        (storeGet st (h (trimString v))).isSome = true →
        postString h st v now = (PostResult.conflict, st))
  ∧ (∀ (h : String → String) (st : Store) (v now : String),
        (st.map Prod.fst).Nodup → (((postString h st v now).2).map Prod.fst).Nodup)
  ∧ (∀ (h : String → String) (st : Store),
        StoreInv h st → (st.map Prod.fst).Nodup →
        ∀ p ∈ st, ∀ q ∈ st, p.2.value = q.2.value → p = q) := by
  refine ⟨?_, ?_, ?_⟩
  · intro h st v now hne hdup
    simp only [postString]
    rw [if_neg hne]
    split
    · rfl
    · next heq =>
      have h2 : storeGet st (h (trimString v)) = none := heq
      rw [h2] at hdup
      exact absurd hdup (by simp)
  · intro h st v now hnd
    simp only [postString]
    split
    · exact hnd
    · split
      · exact hnd
      · simp only [storePut, List.map_append, List.nodup_append]
        refine ⟨?_, by simp, ?_⟩
        · exact ((List.filter_sublist st).map Prod.fst).nodup hnd
        · intro x hx
          simp only [List.map_cons, List.map_nil, List.mem_singleton]
          intro hxk
          subst hxk
          simp only [List.mem_map, List.mem_filter] at hx
          obtain ⟨p, ⟨_, hpk⟩, hfst⟩ := hx
          rw [hfst] at hpk
          simp at hpk
  · intro h st hinv hnd p hp q hq hval
    have hkey : p.1 = q.1 := by
      obtain ⟨hid1, hdig1⟩ := hinv p hp
      obtain ⟨hid2, hdig2⟩ := hinv q hq
      rw [hid1, hdig1, hid2, hdig2, hval]
    exact List.inj_on_of_nodup_map hnd hp hq hkey

/-- C8 witness: a second POST of a value whose digest key is already bound
returns Conflict and the exact prior store. -/
theorem post_duplicate_conflict_witness :
    postString hW stW "x" "t" = (PostResult.conflict, stW) :=
  post_duplicate_conflict.1 hW stW "x" "t" (by decide) rfl

/-! ## C7: the structured-query boundary -/

theorem isSome_ite_some {α : Type} (c : Bool) (x : α) (r : Option α) :
    (if c then some x else r).isSome = (c || r.isSome) := by
  cases c <;> simp

theorem validateB_isSome (params : Params) :
    (validateB params).isSome = invalidInputB params := by
  unfold validateB invalidInputB
  rw [isSome_ite_some, isSome_ite_some, isSome_ite_some, isSome_ite_some, isSome_ite_some]
  simp [Bool.or_assoc]

/-- C7 counterexample: variant A accepts a malformed `min_length` (no
validation at all), and variant B accepts both a multi-character
`contains_character` (the claim calls it malformed) and an unrecognized filter
name, so the boundary does not reject all malformed or unrecognized
parameters as InvalidInput. -/
theorem structured_boundary_counterexample :
    isBadResult (routeGetStringsA [] [("min_length", "abc")]) = false
  ∧ isBadResult (routeGetStringsB [] [("contains_character", "ab")]) = false
  ∧ isBadResult (routeGetStringsB [] [("unknown_filter", "1")]) = false := ⟨rfl, rfl, rfl⟩

/-- C7 amended: variant A never rejects a query-parameter set, and variant B
rejects exactly the sets in which some recognized name carries a malformed
value in the sense of `invalidInputB` (non-boolean `is_palindrome`, non-digit
numeric filters, empty `contains_character`); unrecognized names and
multi-character `contains_character` values are accepted by both variants. -/
theorem structured_boundary_amended :
    (∀ (st : Store) (params : Params), isBadResult (routeGetStringsA st params) = false)
  ∧ (∀ (st : Store) (params : Params),
      isBadResult (routeGetStringsB st params) = invalidInputB params) := by
  refine ⟨fun st params => rfl, fun st params => ?_⟩
  rw [← validateB_isSome]
  unfold routeGetStringsB
  cases hv : validateB params <;> simp [hv, isBadResult]

end StringAnalyzer
